import Mathlib

/-!
# zbpack: Python Dockerfile generator, Node.js version lister, GitHub filesystem adapter

A shallow embedding of three parts of the repository:

* `internal/python/python.go`: `GenerateDockerfile`;
* `internal/nodejs/cmd/listversion/main.go`: `TEMPLATE`, `getNodeVersionsList`, `main`;
* `internal/source` (`GitHubFs`), of which only the black-box test is available, so the
  adapter is modelled from the specification.
-/

namespace Zbpack

/-! ## `internal/python/python.go` -/

namespace Python

/-- `types.PlanMeta` is `map[string]string`; a map is read through its lookup only. -/
abbrev PlanMeta := String → Option String

/-- Go map indexing `meta[key]`: the zero value `""` when the key is absent. -/
def PlanMeta.get (m : PlanMeta) (key : String) : String :=
  (m key).getD ""

/-- A map literal, as written in Go: the first binding of a key is its value. -/
def PlanMeta.ofList (kvs : List (String × String)) : PlanMeta :=
  fun key => kvs.lookup key

/-- `GenerateDockerfile` of `python.go`: the Go pair `(dockerfile, nil)` is `Except.ok`. -/
def GenerateDockerfile (m : PlanMeta) : Except String String :=
  let installCmd := m.get "install"
  let startCmd := m.get "start"
  let aptDeps := m.get "apt-deps"
  let wsgi := m.get "wsgi"
  let dockerfile := "FROM docker.io/library/python:" ++ m.get "pythonVersion" ++ "-slim-buster\n"
  if wsgi ≠ "" then
    .ok (dockerfile ++ ("WORKDIR /app\nRUN apt-get update && apt-get install -y " ++ aptDeps ++
      " \\\n&& rm /etc/nginx/sites-enabled/default \\\n&& echo \"\\\nserver \x7b \\\n        listen 8080; \\\n        location / \x7b \\\n\t\t\tproxy_pass              http://127.0.0.1:8000; \\\n\t\t\tproxy_set_header        Host \\$host; \\\n\t\t\x7d \\\n\t\tlocation /static \x7b \\\n\t\t\tautoindex on; \\\n\t\t\talias /app/static/ ; \\" ++
      "\n\t\t\x7d \\\n    \x7d\"> /etc/nginx/conf.d/default.conf " ++
      " && rm -rf /var/lib/apt/lists/*\nCOPY . .\nRUN " ++ installCmd ++
      "\nEXPOSE 8080\nCMD " ++ startCmd))
  else
    .ok (dockerfile ++ ("\nWORKDIR /app\nRUN apt-get update\nRUN apt-get install -y " ++ aptDeps ++
      "\nRUN rm -rf /var/lib/apt/lists/*\nCOPY . .\nRUN " ++ installCmd ++
      "\nEXPOSE 8080\nCMD " ++ startCmd))

/-- The text of the wsgi branch that stands between the apt packages and the install command:
the three raw-string pieces of the source that the branch concatenates there. -/
def wsgiMiddle : String :=
  " \\\n&& rm /etc/nginx/sites-enabled/default \\\n&& echo \"\\\nserver \x7b \\\n        listen 8080; \\\n        location / \x7b \\\n\t\t\tproxy_pass              http://127.0.0.1:8000; \\\n\t\t\tproxy_set_header        Host \\$host; \\\n\t\t\x7d \\\n\t\tlocation /static \x7b \\\n\t\t\tautoindex on; \\\n\t\t\talias /app/static/ ; \\" ++
  "\n\t\t\x7d \\\n    \x7d\"> /etc/nginx/conf.d/default.conf " ++
  " && rm -rf /var/lib/apt/lists/*\nCOPY . .\nRUN "

end Python

/-! ## `internal/nodejs/cmd/listversion/main.go` -/

namespace Nodejs

/-- A Go `error` value, kept as its message. -/
abbrev Error := String

/-- The part of `github.com/Masterminds/semver` that `main.go` calls: the version type,
`NewVersion`, `(*Version).GreaterThan` and `(*Version).String`. -/
structure Semver where
  /-- The type `semver.Version`. -/
  Version : Type
  /-- The parser `semver.NewVersion`. -/
  NewVersion : String → Except Error Version
  /-- The test `v.GreaterThan(o)`. -/
  GreaterThan : Version → Version → Bool
  /-- The printer `v.String()`. -/
  String : Version → String

/-- What `sort.Interface` asks of `Less`: a strict weak ordering. -/
structure StrictWeakOrder {α : Type} (less : α → α → Bool) : Prop where
  /-- No element is less than itself. -/
  irrefl : ∀ a, less a a = false
  /-- The ordering is transitive. -/
  trans : ∀ a b c, less a b = true → less b c = true → less a c = true
  /-- Being not less is transitive too. -/
  negTrans : ∀ a b c, less a b = false → less b c = false → less a c = false

/-- A strict weak ordering among the elements of one slice: the three laws, asked of the
elements of `xs` only. `sort.Slice` calls `less` on elements of the slice and on nothing
else. -/
structure StrictWeakOrderOn {α : Type} (less : α → α → Bool) (xs : List α) : Prop where
  /-- No element of the slice is less than itself. -/
  irrefl : ∀ a ∈ xs, less a a = false
  /-- The ordering is transitive on the slice. -/
  trans : ∀ a ∈ xs, ∀ b ∈ xs, ∀ c ∈ xs, less a b = true → less b c = true → less a c = true
  /-- Being not less is transitive on the slice. -/
  negTrans : ∀ a ∈ xs, ∀ b ∈ xs, ∀ c ∈ xs,
    less a b = false → less b c = false → less a c = false

/-- The library call `sort.Slice(x, less)` on the slice `x`, with `less` read on elements. -/
structure SortSlice where
  /-- The slice after the call. -/
  sort : {α : Type} → (α → α → Bool) → List α → List α

/-- The result of `sort.IsSorted`: no element is less than the one before it. -/
def IsSorted {α : Type} (less : α → α → Bool) (xs : List α) : Prop :=
  List.Chain' (fun a b => less b a = false) xs

/-- The contract of `sort.Slice`: it permutes the slice, and under a strict weak ordering the
slice ends up sorted. The sort is not stable, so nothing more is known of the order. -/
def SortSlice.Conforms (srt : SortSlice) : Prop :=
  ∀ {α : Type} (less : α → α → Bool) (xs : List α),
    (srt.sort less xs).Perm xs ∧ (StrictWeakOrder less → IsSorted less (srt.sort less xs))

/-- The contract of `sort.Slice` read on the slice alone: it permutes the slice, and when
`less` is a strict weak ordering among the elements of the slice, the slice ends up sorted. -/
def SortSlice.ConformsOn (srt : SortSlice) : Prop :=
  ∀ {α : Type} (less : α → α → Bool) (xs : List α),
    (srt.sort less xs).Perm xs ∧ (StrictWeakOrderOn less xs → IsSorted less (srt.sort less xs))

/-- The insertion step of `insertionSortLessFunc` of package `sort`: the new last element `x`
moves left while it is less than the element before it. The prefix is held reversed. -/
def insertLess {α : Type} (less : α → α → Bool) (x : α) : List α → List α
  | [] => [x]
  | y :: revInit => if less x y then y :: insertLess less x revInit else x :: y :: revInit

/-- The loop of `insertionSortLessFunc`: `revDone` is the sorted prefix, reversed. -/
def insertionLoop {α : Type} (less : α → α → Bool) (revDone : List α) : List α → List α
  | [] => revDone.reverse
  | x :: rest => insertionLoop less (insertLess less x revDone) rest

/-- The path `sort.Slice` takes on a slice of at most twelve elements, `insertionSortLessFunc`,
here run on a slice of any length. -/
def insertionSortSlice : SortSlice where
  sort := fun less xs => insertionLoop less [] xs

/-- The test `strings.HasPrefix(s, pre)`. -/
def HasPrefix (s pre : String) : Bool :=
  pre.data.isPrefixOf s.data

/-- The loop of `getNodeVersionsList` over the keys of `versionsMap`, in the order the
iteration visits them: a key that starts with `v0.` is skipped, any other is parsed and
appended to `versionsList`, and the first parse error is returned. -/
def collectVersions (sv : Semver) (versionsList : List sv.Version) :
    List String → Except Error (List sv.Version)
  | [] => .ok versionsList
  | version :: rest =>
    if HasPrefix version "v0." then
      collectVersions sv versionsList rest
    else
      match sv.NewVersion version with
      | .error err => .error err
      | .ok semverVersion => collectVersions sv (versionsList ++ [semverVersion]) rest

/-- `getNodeVersionsList` of `main.go`. `decoded` is the outcome of the request and of the
JSON decoding into `versionsMap` (an error of either is returned as it is; `http.NewRequest`
and `Do` give a value that is not nil whenever they give no error); a map is its list of
keys, in the order the `range` loop happens to visit them. -/
def getNodeVersionsList (sv : Semver) (srt : SortSlice) (decoded : Except Error (List String)) :
    Except Error (List sv.Version) :=
  match decoded with
  | .error err => .error err
  | .ok versionsMap =>
    match collectVersions sv [] versionsMap with
    | .error err => .error err
    | .ok versionsList => .ok (srt.sort (fun vi vj => sv.GreaterThan vi vj) versionsList)

/-- The constant `TEMPLATE` of `main.go`. -/
def TEMPLATE : String :=
  "// Code generated by listversion; DO NOT EDIT.\n//go:generate go run cmd/listversion/main.go\n\npackage nodejs\n\nimport (\n\t\"github.com/Masterminds/semver/v3\"\n)\n\n// nodeVersions is a list of all the Node.js versions.\n// You should never change values here.\nvar nodeVersions = []*semver.Version\x7b\n\t\x7b\x7b- range .\x7d\x7d\n\tsemver.MustParse(\"\x7b\x7b.\x7d\x7d\"),\n\t\x7b\x7b- end \x7d\x7d\n\x7d\n"

/-! ### The part of `text/template` that `TEMPLATE` uses

Text, the actions `.`, `range .` and `end`, and the trim markers of the two delimiters. -/

/-- An item of the lexer: a run of text, or the words of one action. -/
inductive Item where
  | text (s : List Char)
  | action (words : List (List Char))

/-- The function `isSpace` of the lexer: the characters a trim marker removes. -/
def isSpace (c : Char) : Bool :=
  c = ' ' || c = '\t' || c = '\r' || c = '\n'

/-- The text without its trailing space characters (the lexer's `rightTrimLength`). -/
def trimRightSpace (s : List Char) : List Char :=
  (s.reverse.dropWhile isSpace).reverse

/-- Where the lexer stands: in text (`trim` while the space after a right trim marker is
still being dropped) or inside an action. -/
inductive LexMode where
  | text (acc : List Char) (trim : Bool)
  | action (acc : List Char)

/-- A text item is emitted only when the text is not empty. -/
def emitText (acc : List Char) (items : List Item) : List Item :=
  if acc.isEmpty then items else items ++ [Item.text acc]

/-- The words of an action, split at space characters. -/
def actionWords (acc : List Char) : List (List Char) :=
  (acc.splitOnP isSpace).filter (fun w => !w.isEmpty)

/-- Whether the input starts with the left delimiter and its trim marker: two opening braces,
a minus and a space character. -/
def atLeftTrim (input : List Char) : Bool :=
  match input with
  | a :: b :: c :: d :: _ => a = '\x7b' && b = '\x7b' && c = '-' && isSpace d
  | _ => false

/-- Whether the input starts with the trim marker and the right delimiter: a space character,
a minus and two closing braces. -/
def atRightTrim (input : List Char) : Bool :=
  match input with
  | a :: b :: c :: d :: _ => isSpace a && b = '-' && c = '\x7d' && d = '\x7d'
  | _ => false

/-- The lexer, one character at a time; `skip` counts the characters of a delimiter that are
still to be passed over. -/
def lexGo (mode : LexMode) (items : List Item) (skip : Nat) :
    List Char → Except Error (List Item)
  | [] =>
    match mode with
    | .text acc _ => .ok (emitText acc items)
    | .action _ => .error "unclosed action"
  | c :: rest =>
    match skip with
    | n + 1 => lexGo mode items n rest
    | 0 =>
      match mode with
      | .text acc trim =>
        if atLeftTrim (c :: rest) then
          lexGo (.action []) (emitText (trimRightSpace acc) items) 3 rest
        else if "\x7b\x7b".data.isPrefixOf (c :: rest) then
          lexGo (.action []) (emitText acc items) 1 rest
        else if trim && isSpace c then
          lexGo (.text acc true) items 0 rest
        else
          lexGo (.text (acc ++ [c]) false) items 0 rest
      | .action acc =>
        if atRightTrim (c :: rest) then
          lexGo (.text [] true) (items ++ [Item.action (actionWords acc)]) 3 rest
        else if "\x7d\x7d".data.isPrefixOf (c :: rest) then
          lexGo (.text [] false) (items ++ [Item.action (actionWords acc)]) 1 rest
        else
          lexGo (.action (acc ++ [c])) items 0 rest

/-- A node of the parse tree: text, the action that prints dot, or a `range` over dot. -/
inductive Node where
  | text (s : String)
  | dot
  | range (body : List Node)

/-- The parser: `stack` holds the node lists of the `range` actions still open, `cur` the
list being built. -/
def parseGo (stack : List (List Node)) (cur : List Node) :
    List Item → Except Error (List Node)
  | [] => if stack.isEmpty then .ok cur else .error "unexpected EOF"
  | .text s :: rest => parseGo stack (cur ++ [Node.text (String.mk s)]) rest
  | .action words :: rest =>
    if words = [".".data] then
      parseGo stack (cur ++ [Node.dot]) rest
    else if words = ["range".data, ".".data] then
      parseGo (cur :: stack) [] rest
    else if words = ["end".data] then
      match stack with
      | [] => .error "unexpected end"
      | outer :: stack => parseGo stack (outer ++ [Node.range cur]) rest
    else
      .error "action not supported"

/-- The call `template.New(name).Parse(text)`. -/
def Parse (text : String) : Except Error (List Node) :=
  match lexGo (.text [] false) [] 0 text.data with
  | .error err => .error err
  | .ok items => parseGo [] [] items

/-- The data a template is executed on: a string or a slice of strings. -/
inductive Value where
  | str (s : String)
  | strs (l : List String)

/-- The outputs of a sequence of steps, one after the other, up to the first error. -/
def concatResults : List (Except Error String) → Except Error String
  | [] => .ok ""
  | .error err :: _ => .error err
  | .ok out :: rest =>
    match concatResults rest with
    | .error err => .error err
    | .ok outs => .ok (out ++ outs)

mutual
/-- The output of one node on the value of dot. -/
def execNode : Node → Value → Except Error String
  | .text s, _ => .ok s
  | .dot, .str s => .ok s
  | .dot, .strs l => .ok ("[" ++ " ".intercalate l ++ "]")
  | .range _, .str _ => .error "range can not iterate over a string"
  | .range body, .strs l => concatResults (l.map (fun x => execList body (.str x)))
/-- The output of a list of nodes on the value of dot. -/
def execList : List Node → Value → Except Error String
  | [], _ => .ok ""
  | n :: ns, v =>
    match execNode n v with
    | .error err => .error err
    | .ok out =>
      match execList ns v with
      | .error err => .error err
      | .ok outs => .ok (out ++ outs)
end

/-- The call `tmpl.Execute(w, data)`: what is written to `w`. -/
def Execute (tmpl : List Node) (data : Value) : Except Error String :=
  execList tmpl data

/-- The function `main` from the call of `getNodeVersionsList` on: what is written to the file
handle; an error is the value `main` panics with. -/
def main (sv : Semver) (srt : SortSlice) (decoded : Except Error (List String)) :
    Except Error String :=
  match getNodeVersionsList sv srt decoded with
  | .error err => .error err
  | .ok versions =>
    let versionStr := versions.map (fun v => sv.String v)
    match Parse TEMPLATE with
    | .error err => .error err
    | .ok tmpl => Execute tmpl (.strs versionStr)

/-! ### The library `github.com/Masterminds/semver`

The library is not part of the repository. The definitions below follow the source of its
version 1.5.0 for the four functions `main.go` calls, and are used to run the functions above
on concrete maps. -/

/-- The type `Version` of the library. The three segments are `int64` values that
`NewVersion` has parsed from decimal digits, so they are never negative. -/
structure Version where
  major : Nat
  minor : Nat
  patch : Nat
  pre : String
  metadata : String
  original : String
  deriving DecidableEq, Repr

/-- The character class `[0-9A-Za-z\-]` of the identifiers of a prerelease or of metadata. -/
def isIdentChar (c : Char) : Bool :=
  c.isDigit || c.isAlpha || c = '-'

/-- The optional group `(\.[0-9]+)?` of `SemVerRegex` at the start of the input: what it
matches (the dot included, nothing when it matches nothing) and the input left. -/
def dotDigits (cs : List Char) : List Char × List Char :=
  match cs with
  | '.' :: r =>
    let (digits, rest) := r.span Char.isDigit
    if digits.isEmpty then ([], cs) else ('.' :: digits, rest)
  | _ => ([], cs)

/-- The group `([0-9A-Za-z\-]+(\.[0-9A-Za-z\-]+)*)` of `SemVerRegex` at the start of the
input: the longest run of identifier characters and dots, which the group matches when each
of its parts between dots is not empty. When it is not so, the anchored expression has no
match at all, since what follows the group must be a plus sign or the end. -/
def matchIdents (cs : List Char) : Option (List Char × List Char) :=
  let (run, rest) := cs.span (fun c => isIdentChar c || c = '.')
  if (run.splitOn '.').all (fun part => !part.isEmpty) then some (run, rest) else none

/-- The groups 1, 2, 3, 5 and 8 of a match of `versionRegex`. -/
structure Submatch where
  m1 : List Char
  m2 : List Char
  m3 : List Char
  m5 : List Char
  m8 : List Char
  deriving DecidableEq, Repr

/-- The call `versionRegex.FindStringSubmatch(v)`, for the anchored expression
`^v?([0-9]+)(\.[0-9]+)?(\.[0-9]+)?(-(ident(\.ident)*))?(\+(ident(\.ident)*))?$`. -/
def FindStringSubmatch (v : String) : Option Submatch :=
  let s0 := match v.data with
    | 'v' :: r => r
    | cs => cs
  let (m1, s1) := s0.span Char.isDigit
  if m1.isEmpty then none
  else
    let (m2, s2) := dotDigits s1
    let (m3, s3) := dotDigits s2
    let pre := match s3 with
      | '-' :: r => matchIdents r
      | _ => some ([], s3)
    match pre with
    | none => none
    | some (m5, s4) =>
      match s4 with
      | [] => some ⟨m1, m2, m3, m5, []⟩
      | '+' :: r =>
        match matchIdents r with
        | some (m8, []) => some ⟨m1, m2, m3, m5, m8⟩
        | _ => none
      | _ => none

/-- The number a run of decimal digits stands for. -/
def digitsValue (digits : List Char) : Nat :=
  digits.foldl (fun n c => 10 * n + (c.toNat - 48)) 0

/-- The call `strconv.ParseInt(s, 10, 64)` on a run of decimal digits, wrapped as `NewVersion`
wraps its error: a value above the greatest `int64` is out of range. -/
def ParseInt (digits : List Char) : Except Error Nat :=
  if digitsValue digits < 9223372036854775808 then .ok (digitsValue digits)
  else .error ("Error parsing version segment: strconv.ParseInt: parsing \"" ++
    String.mk digits ++ "\": value out of range")

/-- The function `NewVersion` of the library. -/
def NewVersion (v : String) : Except Error Version :=
  match FindStringSubmatch v with
  | none => .error "Invalid Semantic Version"
  | some m =>
    match ParseInt m.m1 with
    | .error err => .error err
    | .ok major =>
      match (if m.m2 ≠ [] then ParseInt (m.m2.drop 1) else .ok 0) with
      | .error err => .error err
      | .ok minor =>
        match (if m.m3 ≠ [] then ParseInt (m.m3.drop 1) else .ok 0) with
        | .error err => .error err
        | .ok patch =>
          .ok { major := major, minor := minor, patch := patch, pre := String.mk m.m5,
                metadata := String.mk m.m8, original := v }

/-- The method `(*Version).String` of the library. -/
def Version.String (v : Version) : String :=
  toString v.major ++ "." ++ toString v.minor ++ "." ++ toString v.patch ++
    (if v.pre ≠ "" then "-" ++ v.pre else "") ++
    (if v.metadata ≠ "" then "+" ++ v.metadata else "")

/-- The function `compareSegment` of the library. -/
def compareSegment (v o : Nat) : Int :=
  if v < o then -1
  else if v > o then 1
  else 0

/-- The call `strconv.ParseUint(s, 10, 64)`: the value of a non-empty run of decimal digits
that fits 64 bits, and an error (here `none`) on anything else. -/
def ParseUint (s : String) : Option Nat :=
  if s.data.isEmpty || !s.data.all Char.isDigit then none
  else if digitsValue s.data < 18446744073709551616 then some (digitsValue s.data)
  else none

/-- The function `comparePrePart` of the library. Go compares two strings byte by byte, which
on the characters of an identifier is the order of the lists of characters. -/
def comparePrePart (s o : String) : Int :=
  if s = o then 0
  else if s = "" then (if o ≠ "" then -1 else 1)
  else if o = "" then (if s ≠ "" then 1 else -1)
  else
    match ParseUint o, ParseUint s with
    | none, none => if o.data < s.data then 1 else -1
    | none, some _ => -1
    | some _, none => 1
    | some oi, some si => if si > oi then 1 else -1

/-- The placeholders `stemp` and `otemp` of `comparePrerelease` for the indices below `l`:
the parts, then the empty string where the parts have run out. -/
def padParts (l : Nat) (parts : List String) : List String :=
  parts ++ List.replicate (l - parts.length) ""

/-- The loop of `comparePrerelease` over the pairs of placeholders: the first comparison of
parts that is not zero is returned, and zero when there is none. -/
def comparePreParts : List (String × String) → Int
  | [] => 0
  | (stemp, otemp) :: rest =>
    if comparePrePart stemp otemp ≠ 0 then comparePrePart stemp otemp
    else comparePreParts rest

/-- The function `comparePrerelease` of the library. -/
def comparePrerelease (v o : String) : Int :=
  let sparts := (v.data.splitOn '.').map String.mk
  let oparts := (o.data.splitOn '.').map String.mk
  let l := if oparts.length > sparts.length then oparts.length else sparts.length
  comparePreParts ((padParts l sparts).zip (padParts l oparts))

/-- The method `(*Version).Compare` of the library. -/
def Version.Compare (v o : Version) : Int :=
  if compareSegment v.major o.major ≠ 0 then compareSegment v.major o.major
  else if compareSegment v.minor o.minor ≠ 0 then compareSegment v.minor o.minor
  else if compareSegment v.patch o.patch ≠ 0 then compareSegment v.patch o.patch
  else if v.pre = "" ∧ o.pre = "" then 0
  else if v.pre = "" then 1
  else if o.pre = "" then -1
  else comparePrerelease v.pre o.pre

/-- The method `(*Version).GreaterThan` of the library. -/
def Version.GreaterThan (v o : Version) : Bool :=
  decide (v.Compare o > 0)

/-- The library `github.com/Masterminds/semver`, as `main.go` uses it. -/
def masterminds : Semver where
  Version := Version
  NewVersion := NewVersion
  GreaterThan := Version.GreaterThan
  String := Version.String

end Nodejs

/-! ## `internal/source`: the read-only GitHub filesystem

Only the black-box test `githubfs_black_test.go` is available; the adapter and its
components are modelled from the specification. -/

namespace Source

/-- Modelled from the spec: the error taxonomy of the adapter (§7), whose declarations
(`ErrReadonly` among them) are missing. -/
inductive Error where
  | InvalidPath
  | NotFound
  | AccessDenied
  | TransientFailure
  | CorruptContent
  | ContentTooLarge
  | UnsupportedEntryKind
  | ErrReadonly
  | Unclassified
  deriving DecidableEq, Repr

/-- Modelled from the spec: `RepositoryCoordinates` (§3), the state of the missing type
`GitHubFs`: owner, name, optional revision and credential. -/
structure GitHubFs where
  owner : String
  name : String
  revision : Option String
  credential : String
  deriving DecidableEq, Repr

/-- Modelled from the spec: the missing constructor `NewGitHubFs(owner, name, token)` called
by the test (§6); no revision is given, so the default branch is read. -/
def NewGitHubFs (owner name token : String) : GitHubFs :=
  { owner := owner, name := name, revision := none, credential := token }

/-- Modelled from the spec: one JSON object of the remote contents API (§4.3, §6), for the
missing decoder: the discriminator, the name, the size and the encoded content, each of
which may be missing from the object. -/
structure RawObject where
  kind : Option String
  name : Option String
  size : Option Nat
  content : Option String
  deriving DecidableEq, Repr

/-- Modelled from the spec: the body of a remote response (§4.3): a single JSON object, a
JSON array of objects, or a body that is not well-formed. -/
inductive RawResponse where
  | object (o : RawObject)
  | array (items : List RawObject)
  | malformed
  deriving DecidableEq, Repr

/-- Modelled from the spec: the outcome of the one HTTP GET of a fetch (§4.2): a failure of
the network, or a status code and a body. -/
inductive HttpOutcome where
  | networkFailure
  | response (status : Nat) (body : RawResponse)
  deriving DecidableEq, Repr

/-- Modelled from the spec: the remote platform behind the missing `RemoteClient`, or a stub
transport standing for it (§8): what the contents endpoint answers for given coordinates and
a remote path. -/
abbrev Remote := GitHubFs → String → HttpOutcome

/-- Modelled from the spec: the kind of a child of a directory (§3), for the missing
`ChildRef`. -/
inductive Kind where
  | file
  | directory
  | other
  deriving DecidableEq, Repr

/-- Modelled from the spec: `ChildRef` (§3), missing from the sources. -/
structure ChildRef where
  name : String
  kind : Kind
  size : Nat
  deriving DecidableEq, Repr

/-- Modelled from the spec: `Entry` (§3), missing from the sources: the decoded result of
fetching one path, a file, a directory, or an entry of another kind. -/
inductive Entry where
  | file (path : String) (size : Nat) (content : List UInt8)
  | directory (path : String) (children : List ChildRef)
  | other (path : String)
  deriving DecidableEq, Repr

/-- Modelled from the spec: `FileHandle` (§3, §4.5), missing from the sources: one entry and
the read cursor. -/
structure FileHandle where
  entry : Entry
  cursor : Nat
  deriving DecidableEq, Repr

/-- Modelled from the spec: the missing `PathResolver` (§4.1). The path is cut at the
separator; leading, trailing and repeated separators leave no segment; a `..` segment fails
with `InvalidPath`; the empty string and the single separator give the empty remote path. -/
def resolve (path : String) : Except Error String :=
  let segments := (path.data.splitOn '/').filter (fun seg => !seg.isEmpty)
  if segments.contains "..".data then .error .InvalidPath
  else .ok ("/".intercalate (segments.map String.mk))

/-- Modelled from the spec: the missing `RemoteClient` (§4.2): one request, no retry, and the
HTTP outcome classified into the taxonomy. -/
def fetch (remote : Remote) (fs : GitHubFs) (remotePath : String) : Except Error RawResponse :=
  match remote fs remotePath with
  | .networkFailure => .error .TransientFailure
  | .response status body =>
    if status = 404 then .error .NotFound
    else if status = 401 ∨ status = 403 then .error .AccessDenied
    else if 500 ≤ status ∧ status < 600 then .error .TransientFailure
    else if 200 ≤ status ∧ status < 300 then .ok body
    else .error .Unclassified

/-- Modelled from the spec: the kind a discriminator of the remote API stands for (§4.3). -/
def kindOf (discriminator : String) : Kind :=
  if discriminator = "file" then .file
  else if discriminator = "dir" then .directory
  else .other

/-- Modelled from the spec: one element of a directory listing (§4.3), for the missing
decoder: an element without name or discriminator is corrupt. -/
def decodeChild (o : RawObject) : Except Error ChildRef :=
  match o.name, o.kind with
  | some name, some kind => .ok { name := name, kind := kindOf kind, size := o.size.getD 0 }
  | _, _ => .error .CorruptContent

/-- Modelled from the spec: the children of a directory listing (§4.3), one for each element
and in the order of the array; one corrupt element fails the whole call. -/
def decodeChildren : List RawObject → Except Error (List ChildRef)
  | [] => .ok []
  | o :: rest =>
    match decodeChild o with
    | .error err => .error err
    | .ok child =>
      match decodeChildren rest with
      | .error err => .error err
      | .ok children => .ok (child :: children)

/-- Modelled from the spec: the missing `EntryDecoder` (§4.3). `decodeContent` is the decoding
of the content field (base64 or an equivalent), which the spec leaves open. -/
def decode (decodeContent : String → Option (List UInt8)) (remotePath : String) :
    RawResponse → Except Error Entry
  | .malformed => .error .CorruptContent
  | .array items =>
    match decodeChildren items with
    | .error err => .error err
    | .ok children => .ok (.directory remotePath children)
  | .object o =>
    match o.kind with
    | none => .error .CorruptContent
    | some kind =>
      match kindOf kind with
      | .file =>
        match o.content with
        | none => .error .ContentTooLarge
        | some encoded =>
          match decodeContent encoded with
          | none => .error .CorruptContent
          | some bytes => .ok (.file remotePath bytes.length bytes)
      | .directory => .error .CorruptContent
      | .other => .ok (.other remotePath)

/-- Modelled from the spec: what an operation of the missing adapter gives back, together
with the remote paths it requested, one for each remote call, in order. -/
abbrev Outcome := Except Error FileHandle × List String

/-- Modelled from the spec: the missing `GitHubFs.Open` (§4.4): resolve, fetch, decode, and
wrap the entry in a handle; an error of any layer is passed on as it is. A path that does not
resolve fails before any remote call. -/
def Open (remote : Remote) (decodeContent : String → Option (List UInt8)) (fs : GitHubFs)
    (path : String) : Outcome :=
  match resolve path with
  | .error err => (.error err, [])
  | .ok remotePath =>
    match fetch remote fs remotePath with
    | .error err => (.error err, [remotePath])
    | .ok raw =>
      match decode decodeContent remotePath raw with
      | .error err => (.error err, [remotePath])
      | .ok entry => (.ok { entry := entry, cursor := 0 }, [remotePath])

/-- The flag `os.O_RDONLY` of Go (Linux). -/
def O_RDONLY : Nat := 0x0
/-- The flag `os.O_WRONLY` of Go (Linux). -/
def O_WRONLY : Nat := 0x1
/-- The flag `os.O_RDWR` of Go (Linux). -/
def O_RDWR : Nat := 0x2
/-- The flag `os.O_CREATE` of Go (Linux). -/
def O_CREATE : Nat := 0x40
/-- The flag `os.O_TRUNC` of Go (Linux). -/
def O_TRUNC : Nat := 0x200
/-- The flag `os.O_APPEND` of Go (Linux). -/
def O_APPEND : Nat := 0x400

/-- Modelled from the spec: the missing guard of the adapter (§4.4, §9): the flags request
write, append, create or truncate intent. -/
def writeIntent (flags : Nat) : Bool :=
  flags &&& (O_WRONLY ||| O_RDWR ||| O_APPEND ||| O_CREATE ||| O_TRUNC) != 0

/-- Modelled from the spec: the missing `GitHubFs.OpenFile` (§4.4): with write intent it fails
at once with `ErrReadonly`, before the path is looked at and without a remote call; otherwise
it is `Open`. The permission hint is not used. -/
def OpenFile (remote : Remote) (decodeContent : String → Option (List UInt8)) (fs : GitHubFs)
    (path : String) (flags : Nat) (_perm : Nat) : Outcome :=
  if writeIntent flags then (.error .ErrReadonly, [])
  else Open remote decodeContent fs path

end Source

end Zbpack

set_option maxRecDepth 1000000

/-! ## Theorems: the Python Dockerfile generator -/

namespace Zbpack.Python

/-- C3, as amended: when the `wsgi` value of the meta is empty or absent,
`GenerateDockerfile` returns exactly the plain template filled with the Python version, the
apt packages, the install command and the start command, an absent key reading as the empty
string. Nothing follows the start command, so the result ends with a newline exactly when
the start command itself does. -/
theorem generateDockerfile_without_wsgi (m : PlanMeta) (h : m.get "wsgi" = "") :
    GenerateDockerfile m = .ok ("FROM docker.io/library/python:" ++ m.get "pythonVersion" ++
      "-slim-buster\n" ++ "\nWORKDIR /app\nRUN apt-get update\nRUN apt-get install -y " ++
      m.get "apt-deps" ++ "\nRUN rm -rf /var/lib/apt/lists/*\nCOPY . .\nRUN " ++
      m.get "install" ++ "\nEXPOSE 8080\nCMD " ++ m.get "start") ∧
    ∀ out, GenerateDockerfile m = .ok out →
      (out.data.getLast? = some '\n' ↔ (m.get "start").data.getLast? = some '\n') := by
  have key : GenerateDockerfile m = .ok ("FROM docker.io/library/python:" ++
      m.get "pythonVersion" ++
      "-slim-buster\n" ++ "\nWORKDIR /app\nRUN apt-get update\nRUN apt-get install -y " ++
      m.get "apt-deps" ++ "\nRUN rm -rf /var/lib/apt/lists/*\nCOPY . .\nRUN " ++
      m.get "install" ++ "\nEXPOSE 8080\nCMD " ++ m.get "start") := by
    simp only [GenerateDockerfile, h, ne_eq, not_true_eq_false, if_false, String.append_assoc]
  refine ⟨key, ?_⟩
  intro out hout
  rw [key] at hout
  injection hout with hout
  subst hout
  have split : ∀ a b : String, a ++ "\nEXPOSE 8080\nCMD " ++ b =
      (a ++ "\nEXPOSE 8080\nCMD") ++ (" " ++ b) := by
    intro a b
    simp only [String.append_assoc]
    rfl
  rw [split, String.data_append, List.getLast?_append_of_ne_nil _ (by simp [String.data_append]),
    String.data_append]
  cases hs : (m.get "start").data with
  | nil => exact ⟨fun hc => by simp at hc, fun hc => by simp at hc⟩
  | cons c t => rw [List.getLast?_append_of_ne_nil _ (List.cons_ne_nil c t)]

/-- Witness of C3: a meta without a `wsgi` key, with the Dockerfile it gives. -/
theorem generateDockerfile_without_wsgi_witness :
    GenerateDockerfile (PlanMeta.ofList [("pythonVersion", "3.10"),
        ("install", "pip install -r requirements.txt"), ("start", "python main.py")]) =
      .ok "FROM docker.io/library/python:3.10-slim-buster\n\nWORKDIR /app\nRUN apt-get update\nRUN apt-get install -y \nRUN rm -rf /var/lib/apt/lists/*\nCOPY . .\nRUN pip install -r requirements.txt\nEXPOSE 8080\nCMD python main.py" :=
  (generateDockerfile_without_wsgi (PlanMeta.ofList [("pythonVersion", "3.10"),
    ("install", "pip install -r requirements.txt"), ("start", "python main.py")]) rfl).1

/-- Counterexample to C3 as stated: a meta without a `wsgi` key whose start command ends with
a line break; the Dockerfile returned ends with that line break, so it has a trailing
newline. -/
theorem generateDockerfile_without_wsgi_counterexample :
    PlanMeta.get (PlanMeta.ofList [("pythonVersion", "3.8"),
        ("start", "python main.py\n")]) "wsgi" = "" ∧
    GenerateDockerfile (PlanMeta.ofList [("pythonVersion", "3.8"),
        ("start", "python main.py\n")]) =
      .ok "FROM docker.io/library/python:3.8-slim-buster\n\nWORKDIR /app\nRUN apt-get update\nRUN apt-get install -y \nRUN rm -rf /var/lib/apt/lists/*\nCOPY . .\nRUN \nEXPOSE 8080\nCMD python main.py\n" ∧
    "FROM docker.io/library/python:3.8-slim-buster\n\nWORKDIR /app\nRUN apt-get update\nRUN apt-get install -y \nRUN rm -rf /var/lib/apt/lists/*\nCOPY . .\nRUN \nEXPOSE 8080\nCMD python main.py\n".data.getLast? =
      some '\n' := by
  refine ⟨rfl, rfl, ?_⟩
  decide

/-- C4: when the `wsgi` value of the meta is not empty, `GenerateDockerfile` returns the wsgi
template: the `FROM` line, the work directory, the apt line with the apt packages, then one
fixed text `wsgiMiddle` that does not depend on the meta, then the install command, the
`EXPOSE` line and the start command. The fixed text removes the default nginx site, writes a
server block (listening on 8080, passing to `http://127.0.0.1:8000`, with `/static` an alias
of `/app/static/`) to `/etc/nginx/conf.d/default.conf`, removes the apt lists, and ends with
the `COPY` line and the opening of the `RUN` line. -/
theorem generateDockerfile_with_wsgi (m : PlanMeta) (h : m.get "wsgi" ≠ "") :
    GenerateDockerfile m = .ok ("FROM docker.io/library/python:" ++ m.get "pythonVersion" ++
      "-slim-buster\n" ++ "WORKDIR /app\nRUN apt-get update && apt-get install -y " ++
      m.get "apt-deps" ++ wsgiMiddle ++ m.get "install" ++ "\nEXPOSE 8080\nCMD " ++
      m.get "start") ∧
    "&& rm /etc/nginx/sites-enabled/default".data <:+: wsgiMiddle.data ∧
    "&& echo \"\\\nserver \x7b".data <:+: wsgiMiddle.data ∧
    "listen 8080;".data <:+: wsgiMiddle.data ∧
    "proxy_pass              http://127.0.0.1:8000;".data <:+: wsgiMiddle.data ∧
    "location /static \x7b \\\n\t\t\tautoindex on; \\\n\t\t\talias /app/static/ ;".data <:+:
      wsgiMiddle.data ∧
    "\x7d\"> /etc/nginx/conf.d/default.conf".data <:+: wsgiMiddle.data ∧
    "&& rm -rf /var/lib/apt/lists/*".data <:+: wsgiMiddle.data ∧
    "\nCOPY . .\nRUN ".data <:+ wsgiMiddle.data := by
  refine ⟨?_, ?_, ?_, ?_, ?_, ?_, ?_, ?_, ?_⟩
  · simp only [GenerateDockerfile, h, wsgiMiddle, ne_eq, not_false_eq_true, if_true,
      String.append_assoc]
  all_goals decide

/-- Witness of C4: a meta with a `wsgi` value, with the start of the Dockerfile it gives. -/
theorem generateDockerfile_with_wsgi_witness :
    GenerateDockerfile (PlanMeta.ofList [("pythonVersion", "3.11"), ("wsgi", "app.wsgi"),
        ("apt-deps", "nginx"), ("install", "pip install gunicorn"),
        ("start", "gunicorn app.wsgi")]) =
      .ok ("FROM docker.io/library/python:3.11-slim-buster\nWORKDIR /app\nRUN apt-get update && apt-get install -y nginx" ++
        wsgiMiddle ++ "pip install gunicorn\nEXPOSE 8080\nCMD gunicorn app.wsgi") :=
  (generateDockerfile_with_wsgi (PlanMeta.ofList [("pythonVersion", "3.11"),
    ("wsgi", "app.wsgi"), ("apt-deps", "nginx"), ("install", "pip install gunicorn"),
    ("start", "gunicorn app.wsgi")]) (by decide)).1

/-- C8: `GenerateDockerfile` reads the meta through the keys `pythonVersion`, `install`,
`start`, `apt-deps` and `wsgi` only, and `wsgi` only as a flag: two metas that agree on the
first four keys and whose `wsgi` values are both empty (or absent) or both non-empty give the
same Dockerfile, whatever else the two metas hold. -/
theorem generateDockerfile_reads_five_keys (m₁ m₂ : PlanMeta)
    (hversion : m₁.get "pythonVersion" = m₂.get "pythonVersion")
    (hinstall : m₁.get "install" = m₂.get "install")
    (hstart : m₁.get "start" = m₂.get "start")
    (hapt : m₁.get "apt-deps" = m₂.get "apt-deps")
    (hwsgi : m₁.get "wsgi" = "" ↔ m₂.get "wsgi" = "") :
    GenerateDockerfile m₁ = GenerateDockerfile m₂ := by
  by_cases h : m₂.get "wsgi" = ""
  · have h₁ : m₁.get "wsgi" = "" := hwsgi.mpr h
    simp only [GenerateDockerfile, h, h₁, hversion, hinstall, hstart, hapt]
  · have h₁ : ¬ m₁.get "wsgi" = "" := fun e => h (hwsgi.mp e)
    simp only [GenerateDockerfile, h, h₁, hversion, hinstall, hstart, hapt, ne_eq,
      not_false_eq_true, if_true]

/-- Witness of C8: two metas with different non-empty `wsgi` values, and one of them with a
key the generator does not read, give the same Dockerfile. -/
theorem generateDockerfile_reads_five_keys_witness :
    PlanMeta.get (PlanMeta.ofList [("pythonVersion", "3.11"), ("wsgi", "app.wsgi"),
        ("start", "run")]) "wsgi" ≠
      PlanMeta.get (PlanMeta.ofList [("wsgi", "other.application"), ("framework", "django"),
        ("pythonVersion", "3.11"), ("start", "run")]) "wsgi" ∧
    GenerateDockerfile (PlanMeta.ofList [("pythonVersion", "3.11"), ("wsgi", "app.wsgi"),
        ("start", "run")]) =
      GenerateDockerfile (PlanMeta.ofList [("wsgi", "other.application"),
        ("framework", "django"), ("pythonVersion", "3.11"), ("start", "run")]) :=
  ⟨by decide, generateDockerfile_reads_five_keys _ _ (by decide) (by decide) (by decide)
    (by decide) (by decide)⟩

end Zbpack.Python

/-! ## Theorems: the read-only GitHub filesystem -/

namespace Zbpack.Source

/-- C1: for every path (the root and paths that do not exist included) and every flag value
with write intent, `OpenFile` fails with `ErrReadonly` and requests nothing from the remote:
the list of remote calls is empty, whatever the remote would answer. -/
theorem openFile_write_intent_readonly (remote : Remote)
    (decodeContent : String → Option (List UInt8)) (fs : GitHubFs) (path : String)
    (flags perm : Nat) (h : writeIntent flags = true) :
    OpenFile remote decodeContent fs path flags perm = (.error .ErrReadonly, []) := by
  simp [OpenFile, h]

/-- Witness of C1: the call of the test, `OpenFile("readme.md", os.O_RDWR, 0)`, on the file
system of the test and a remote that would answer any request with an empty listing. -/
theorem openFile_write_intent_readonly_witness :
    writeIntent O_RDWR = true ∧
    OpenFile (fun _ _ => .response 200 (.array [])) (fun _ => none)
      (NewGitHubFs "zeabur" "zeabur" "token") "readme.md" O_RDWR 0 =
        (.error .ErrReadonly, []) :=
  ⟨by decide, openFile_write_intent_readonly _ _ _ _ _ _ (by decide)⟩

/-- C2: opening the repository root does not depend on the spelling. `Open("")` and
`Open("/")` both resolve to the empty remote path, the repository root, and give the same
outcome on every remote; and when the remote serves a well-formed listing of the root, both
succeed with a handle on the same `DirectoryEntry`, whose children are the decoded elements
of the listing in their order, after one remote call each. -/
theorem open_root_spelling_independent (remote : Remote)
    (decodeContent : String → Option (List UInt8)) (fs : GitHubFs) :
    resolve "" = .ok "" ∧ resolve "/" = .ok "" ∧
    Open remote decodeContent fs "" = Open remote decodeContent fs "/" ∧
    ∀ items children, fetch remote fs "" = .ok (.array items) →
      decodeChildren items = .ok children →
      Open remote decodeContent fs "" =
        (.ok { entry := .directory "" children, cursor := 0 }, [""]) ∧
      Open remote decodeContent fs "/" =
        (.ok { entry := .directory "" children, cursor := 0 }, [""]) := by
  have h₁ : resolve "" = .ok "" := rfl
  have h₂ : resolve "/" = .ok "" := rfl
  refine ⟨h₁, h₂, ?_, ?_⟩
  · simp only [Open, h₁, h₂]
  · intro items children hfetch hdecode
    simp only [Open, h₁, h₂, hfetch, decode, hdecode, and_self]

/-- Witness of C2: a remote that serves a root listing of a file and a directory; both
spellings of the root open it with the same two children. -/
theorem open_root_spelling_independent_witness :
    Open (fun _ _ => .response 200 (.array [
        { kind := some "file", name := some "readme.md", size := some 12, content := none },
        { kind := some "dir", name := some "src", size := none, content := none }]))
      (fun _ => none) (NewGitHubFs "zeabur" "zeabur" "token") "/" =
    (.ok { entry := .directory "" [{ name := "readme.md", kind := .file, size := 12 },
      { name := "src", kind := .directory, size := 0 }], cursor := 0 }, [""]) :=
  ((open_root_spelling_independent (fun _ _ => .response 200 (.array [
        { kind := some "file", name := some "readme.md", size := some 12, content := none },
        { kind := some "dir", name := some "src", size := none, content := none }]))
      (fun _ => none) (NewGitHubFs "zeabur" "zeabur" "token")).2.2.2 _ _ rfl rfl).2

end Zbpack.Source

/-! ## Theorems: the Node.js version lister -/

namespace Zbpack.Nodejs

/-- A strict weak ordering is one among the elements of every slice. -/
theorem StrictWeakOrder.on {α : Type} {less : α → α → Bool} (h : StrictWeakOrder less)
    (xs : List α) : StrictWeakOrderOn less xs :=
  ⟨fun a _ => h.irrefl a, fun a _ b _ c _ => h.trans a b c, fun a _ b _ c _ => h.negTrans a b c⟩

/-- A strict weak ordering among the elements of a slice is one among fewer elements. -/
theorem StrictWeakOrderOn.mono {α : Type} {less : α → α → Bool} {xs ys : List α}
    (h : StrictWeakOrderOn less xs) (hsub : ∀ a ∈ ys, a ∈ xs) : StrictWeakOrderOn less ys :=
  ⟨fun a ha => h.irrefl a (hsub a ha),
   fun a ha b hb c hc => h.trans a (hsub a ha) b (hsub b hb) c (hsub c hc),
   fun a ha b hb c hc => h.negTrans a (hsub a ha) b (hsub b hb) c (hsub c hc)⟩

/-- A strict weak ordering among the elements of a slice is asymmetric on them. -/
theorem StrictWeakOrderOn.asymm {α : Type} {less : α → α → Bool} {xs : List α}
    (h : StrictWeakOrderOn less xs) {a b : α} (ha : a ∈ xs) (hb : b ∈ xs)
    (hab : less a b = true) : less b a = false := by
  cases hba : less b a with
  | false => rfl
  | true =>
    have haa := h.trans a ha b hb a ha hab hba
    rw [h.irrefl a ha] at haa
    cases haa

/-- In a chain of a relation that is transitive on the elements of the chain, the first
element is related to every later one. -/
theorem chain_rel_of_mem {α : Type} {R : α → α → Prop} (t : List α) (a : α)
    (htrans : ∀ x ∈ a :: t, ∀ y ∈ a :: t, ∀ z ∈ a :: t, R x y → R y z → R x z)
    (hc : List.Chain R a t) : ∀ b ∈ t, R a b := by
  induction t generalizing a with
  | nil => intro b hb; cases hb
  | cons c t ih =>
    rw [List.chain_cons] at hc
    intro b hb
    rcases List.mem_cons.mp hb with rfl | hb
    · exact hc.1
    · have hcb : R c b := ih c (fun x hx y hy z hz =>
        htrans x (List.mem_cons_of_mem _ hx) y (List.mem_cons_of_mem _ hy) z
          (List.mem_cons_of_mem _ hz)) hc.2 b hb
      exact htrans a (List.mem_cons_self _ _) c (List.mem_cons_of_mem _ (List.mem_cons_self _ _))
        b (List.mem_cons_of_mem _ (List.mem_cons_of_mem _ hb)) hc.1 hcb

/-- Under a strict weak ordering among its elements, a sorted slice is in order at every pair
of positions, not only at neighbours. -/
theorem IsSorted.pairwise {α : Type} {less : α → α → Bool} {xs : List α}
    (h : StrictWeakOrderOn less xs) (hs : IsSorted less xs) :
    xs.Pairwise (fun a b => less b a = false) := by
  induction xs with
  | nil => exact List.Pairwise.nil
  | cons a t ih =>
    rw [List.pairwise_cons]
    constructor
    · exact chain_rel_of_mem t a
        (fun x hx y hy z hz hxy hyz => h.negTrans z hz y hy x hx hyz hxy) hs
    · exact ih (h.mono (fun b hb => List.mem_cons_of_mem _ hb)) (List.Chain'.tail hs)

/-- The insertion step permutes. -/
theorem insertLess_perm {α : Type} (less : α → α → Bool) (x : α) (l : List α) :
    (insertLess less x l).Perm (x :: l) := by
  induction l with
  | nil => exact List.Perm.refl _
  | cons y t ih =>
    simp only [insertLess]
    split
    · exact (List.Perm.cons y ih).trans (List.Perm.swap x y t)
    · exact List.Perm.refl _

/-- The insertion loop permutes. -/
theorem insertionLoop_perm {α : Type} (less : α → α → Bool) (revDone xs : List α) :
    (insertionLoop less revDone xs).Perm (revDone.reverse ++ xs) := by
  induction xs generalizing revDone with
  | nil => simp [insertionLoop]
  | cons x rest ih =>
    simp only [insertionLoop]
    refine (ih _).trans ?_
    have h₁ : (insertLess less x revDone).reverse.Perm (revDone.reverse ++ [x]) := by
      refine (List.reverse_perm _).trans ((insertLess_perm less x revDone).trans ?_)
      rw [← List.reverse_cons]
      exact (List.reverse_perm _).symm
    have h₂ := h₁.append_right rest
    simpa using h₂

/-- The insertion step keeps the elements and adds the new one. -/
theorem insertLess_mem {α : Type} (less : α → α → Bool) (x a : α) (l : List α) :
    a ∈ insertLess less x l ↔ a = x ∨ a ∈ l := by
  rw [(insertLess_perm less x l).mem_iff, List.mem_cons]

/-- The head of the list after an insertion step is the new element or the old head. -/
theorem insertLess_head {α : Type} (less : α → α → Bool) (x : α) (l : List α) :
    ∀ h ∈ (insertLess less x l).head?, h = x ∨ h ∈ l.head? := by
  intro h hh
  cases l with
  | nil => simp [insertLess] at hh; exact Or.inl hh.symm
  | cons y t =>
    simp only [insertLess] at hh
    split at hh
    · right; simpa using hh
    · left; simp at hh; exact hh.symm

/-- The insertion step keeps the reversed prefix in order. -/
theorem insertLess_chain {α : Type} {less : α → α → Bool} {all : List α}
    (h : StrictWeakOrderOn less all) (x : α) (hx : x ∈ all) (l : List α)
    (hmem : ∀ a ∈ l, a ∈ all) (hl : l.Chain' (fun a b => less a b = false)) :
    (insertLess less x l).Chain' (fun a b => less a b = false) := by
  induction l with
  | nil => simp [insertLess]
  | cons y t ih =>
    simp only [insertLess]
    rw [List.chain'_cons'] at hl
    have hy : y ∈ all := hmem y (List.mem_cons_self _ _)
    have ht : ∀ a ∈ t, a ∈ all := fun a ha => hmem a (List.mem_cons_of_mem _ ha)
    split
    · rename_i hxy
      rw [List.chain'_cons']
      refine ⟨?_, ih ht hl.2⟩
      intro z hz
      rcases insertLess_head less x t z hz with rfl | hz
      · exact h.asymm hx hy hxy
      · exact hl.1 z hz
    · rename_i hxy
      rw [List.chain'_cons']
      refine ⟨?_, List.chain'_cons'.mpr hl⟩
      intro z hz
      simp at hz
      subst hz
      simpa using hxy

/-- The insertion loop ends with a sorted slice. -/
theorem insertionLoop_sorted {α : Type} {less : α → α → Bool} {all : List α}
    (h : StrictWeakOrderOn less all) (revDone xs : List α)
    (hdone : ∀ a ∈ revDone, a ∈ all) (hxs : ∀ a ∈ xs, a ∈ all)
    (hd : revDone.Chain' (fun a b => less a b = false)) :
    IsSorted less (insertionLoop less revDone xs) := by
  induction xs generalizing revDone with
  | nil =>
    simp only [insertionLoop, IsSorted]
    rw [List.chain'_reverse]
    exact hd
  | cons x rest ih =>
    simp only [insertionLoop]
    have hx : x ∈ all := hxs x (List.mem_cons_self _ _)
    refine ih _ ?_ (fun a ha => hxs a (List.mem_cons_of_mem _ ha))
      (insertLess_chain h x hx revDone hdone hd)
    intro a ha
    rcases (insertLess_mem less x a revDone).mp ha with rfl | ha
    · exact hx
    · exact hdone a ha

/-- The insertion sort of package `sort` meets the contract of `sort.Slice` read on the slice
alone. -/
theorem insertionSortSlice_conformsOn : insertionSortSlice.ConformsOn := by
  intro α less xs
  refine ⟨?_, fun h => ?_⟩
  · simpa [insertionSortSlice] using insertionLoop_perm less [] xs
  · exact insertionLoop_sorted h [] xs (fun a ha => by cases ha) (fun a ha => ha)
      List.chain'_nil

/-- The contract read on the slice alone gives the contract. -/
theorem SortSlice.ConformsOn.conforms {srt : SortSlice} (h : srt.ConformsOn) :
    srt.Conforms := by
  intro α less xs
  exact ⟨(h less xs).1, fun hswo => (h less xs).2 (hswo.on xs)⟩

/-- The insertion sort of package `sort` meets the contract of `sort.Slice`. -/
theorem insertionSortSlice_conforms : insertionSortSlice.Conforms :=
  insertionSortSlice_conformsOn.conforms

/-- Between two versions without prerelease, `GreaterThan` compares the three segments in
order. -/
theorem greaterThan_no_prerelease (a b : Version) (ha : a.pre = "") (hb : b.pre = "") :
    a.GreaterThan b = decide (b.major < a.major ∨ (b.major = a.major ∧
      (b.minor < a.minor ∨ (b.minor = a.minor ∧ b.patch < a.patch)))) := by
  have hseg : ∀ v o : Nat, (compareSegment v o ≠ 0 ↔ v ≠ o) ∧
      (0 < compareSegment v o ↔ o < v) := by
    intro v o
    unfold compareSegment
    split_ifs <;> constructor <;> constructor <;> intro hh <;> omega
  simp only [Version.GreaterThan, Version.Compare, ha, hb, and_self, if_true]
  apply decide_eq_decide.mpr
  split_ifs with h₁ h₂ h₃
  · rw [gt_iff_lt, (hseg _ _).2]
    have := (hseg _ _).1.mp h₁
    omega
  · rw [gt_iff_lt, (hseg _ _).2]
    have := (hseg _ _).1.mp h₂
    have := not_not.mp (mt (hseg a.major b.major).1.mpr h₁)
    omega
  · rw [gt_iff_lt, (hseg _ _).2]
    have := not_not.mp (mt (hseg a.major b.major).1.mpr h₁)
    have := not_not.mp (mt (hseg a.minor b.minor).1.mpr h₂)
    omega
  · have := not_not.mp (mt (hseg a.major b.major).1.mpr h₁)
    have := not_not.mp (mt (hseg a.minor b.minor).1.mpr h₂)
    have := not_not.mp (mt (hseg a.patch b.patch).1.mpr h₃)
    simp only [gt_iff_lt, lt_self_iff_false, false_iff]
    omega

/-- Among versions without prerelease, `GreaterThan` of the library is a strict weak
ordering. -/
theorem masterminds_strictWeakOrderOn (xs : List Version) (h : ∀ v ∈ xs, v.pre = "") :
    StrictWeakOrderOn (fun a b => masterminds.GreaterThan a b) xs := by
  refine ⟨?_, ?_, ?_⟩
  · intro a ha
    show a.GreaterThan a = false
    rw [greaterThan_no_prerelease a a (h a ha) (h a ha)]
    simp
  · intro a ha b hb c hc hab hbc
    change a.GreaterThan b = true at hab
    change b.GreaterThan c = true at hbc
    show a.GreaterThan c = true
    rw [greaterThan_no_prerelease _ _ (h _ ‹_›) (h _ ‹_›), decide_eq_true_eq] at hab hbc ⊢
    omega
  · intro a ha b hb c hc hab hbc
    change a.GreaterThan b = false at hab
    change b.GreaterThan c = false at hbc
    show a.GreaterThan c = false
    rw [greaterThan_no_prerelease _ _ (h _ ‹_›) (h _ ‹_›), decide_eq_false_iff_not]
      at hab hbc ⊢
    omega

/-- What the loop over the keys has collected when it ends without error: the versions it
started with, then the parses of the keys that do not start with `v0.`, in order. -/
theorem collectVersions_ok (sv : Semver) (acc : List sv.Version) (keys : List String)
    (vs : List sv.Version) (h : collectVersions sv acc keys = .ok vs) :
    vs.map Except.ok = acc.map Except.ok ++
      (keys.filter (fun k => !HasPrefix k "v0.")).map sv.NewVersion := by
  induction keys generalizing acc with
  | nil =>
    simp only [collectVersions] at h
    injection h with h
    simp [h]
  | cons k rest ih =>
    simp only [collectVersions] at h
    by_cases hk : HasPrefix k "v0." = true
    · simp only [hk, if_true] at h
      simpa [hk] using ih acc h
    · simp only [hk] at h
      cases hp : sv.NewVersion k with
      | error err => simp [hp] at h
      | ok v =>
        simp only [hp] at h
        have := ih _ h
        simp [hk, hp, this]


/-- C5, as amended: on every decoded schedule map on which `getNodeVersionsList` succeeds and
among whose returned versions `GreaterThan` is a strict weak ordering, the returned list is
in descending order: for all positions `i < j`, the version at `j` is not greater than the
version at `i`. With the library `github.com/Masterminds/semver` this is so whenever no
returned version has a prerelease part. `sort.Slice` is taken with its contract. -/
theorem getNodeVersionsList_descending :
    (∀ (sv : Semver) (srt : SortSlice), srt.ConformsOn →
      ∀ (versionsMap : List String) (versions : List sv.Version),
      getNodeVersionsList sv srt (.ok versionsMap) = .ok versions →
      StrictWeakOrderOn (fun vi vj => sv.GreaterThan vi vj) versions →
      ∀ i j : Fin versions.length, i < j →
        sv.GreaterThan (versions.get j) (versions.get i) = false) ∧
    (∀ (srt : SortSlice), srt.ConformsOn →
      ∀ (versionsMap : List String) (versions : List Version),
      getNodeVersionsList masterminds srt (.ok versionsMap) = .ok versions →
      (∀ v ∈ versions, v.pre = "") →
      ∀ i j : Fin versions.length, i < j →
        (versions.get j).GreaterThan (versions.get i) = false) := by
  have general : ∀ (sv : Semver) (srt : SortSlice), srt.ConformsOn →
      ∀ (versionsMap : List String) (versions : List sv.Version),
      getNodeVersionsList sv srt (.ok versionsMap) = .ok versions →
      StrictWeakOrderOn (fun vi vj => sv.GreaterThan vi vj) versions →
      ∀ i j : Fin versions.length, i < j →
        sv.GreaterThan (versions.get j) (versions.get i) = false := by
    intro sv srt hsrt versionsMap versions h hswo
    simp only [getNodeVersionsList] at h
    cases hc : collectVersions sv [] versionsMap with
    | error err => simp [hc] at h
    | ok versionsList =>
      simp only [hc] at h
      injection h with h
      subst h
      have hcontract := hsrt (fun vi vj => sv.GreaterThan vi vj) versionsList
      have hsorted := hcontract.2 (hswo.mono (fun a ha => hcontract.1.mem_iff.mpr ha))
      have hpair := IsSorted.pairwise hswo hsorted
      intro i j hij
      exact List.pairwise_iff_get.mp hpair i j hij
  refine ⟨general, ?_⟩
  intro srt hsrt versionsMap versions h hpre
  exact general masterminds srt hsrt versionsMap versions h
    (masterminds_strictWeakOrderOn versions hpre)

/-- Witness of C5: a schedule with two unstable keys, run with the library and the insertion
sort; no version has a prerelease part, and the three come out in descending order. -/
theorem getNodeVersionsList_descending_witness :
    getNodeVersionsList masterminds insertionSortSlice
        (.ok ["v18", "v0.10", "v20", "v4", "v0.12"]) =
      .ok [⟨20, 0, 0, "", "", "v20"⟩, ⟨18, 0, 0, "", "", "v18"⟩, ⟨4, 0, 0, "", "", "v4"⟩] ∧
    ∀ i j : Fin 3, i < j →
      Version.GreaterThan
        (([⟨20, 0, 0, "", "", "v20"⟩, ⟨18, 0, 0, "", "", "v18"⟩, ⟨4, 0, 0, "", "", "v4"⟩] : List Version).get j)
        (([⟨20, 0, 0, "", "", "v20"⟩, ⟨18, 0, 0, "", "", "v18"⟩, ⟨4, 0, 0, "", "", "v4"⟩] : List Version).get i) = false :=
  ⟨rfl, getNodeVersionsList_descending.2 insertionSortSlice insertionSortSlice_conformsOn
    ["v18", "v0.10", "v20", "v4", "v0.12"]
    [⟨20, 0, 0, "", "", "v20"⟩, ⟨18, 0, 0, "", "", "v18"⟩, ⟨4, 0, 0, "", "", "v4"⟩] rfl (by decide)⟩

/-- Counterexample to C5 as stated: three keys that `NewVersion` accepts, visited in this
order, with prerelease parts `1.4`, `01.0` and `1.5`. `comparePrePart` finds neither of `1`
and `01` greater than the other, so the insertion sort, the path `sort.Slice` takes on three
elements, moves nothing; the call succeeds, and the last version returned is greater than
the first. -/
theorem getNodeVersionsList_descending_counterexample :
    getNodeVersionsList masterminds insertionSortSlice
        (.ok ["v1.0.0-1.4", "v1.0.0-01.0", "v1.0.0-1.5"]) =
      .ok [⟨1, 0, 0, "1.4", "", "v1.0.0-1.4"⟩, ⟨1, 0, 0, "01.0", "", "v1.0.0-01.0"⟩,
        ⟨1, 0, 0, "1.5", "", "v1.0.0-1.5"⟩] ∧
    Version.GreaterThan ⟨1, 0, 0, "1.5", "", "v1.0.0-1.5"⟩
      ⟨1, 0, 0, "1.4", "", "v1.0.0-1.4"⟩ = true := by
  constructor
  · rfl
  · rfl

/-- C6: `getNodeVersionsList` ignores the unstable keys and keeps everything else: on every
decoded schedule map on which it succeeds, the returned list is, as a multiset, exactly the
parses of the keys that do not start with `v0.`, so a key that starts with `v0.` gives no
version, and the length of the list is the number of the other keys. -/
theorem getNodeVersionsList_keeps_all_but_v0 (sv : Semver) (srt : SortSlice)
    (hsrt : srt.Conforms) (versionsMap : List String) (versions : List sv.Version)
    (h : getNodeVersionsList sv srt (.ok versionsMap) = .ok versions) :
    Multiset.ofList (versions.map Except.ok) =
      Multiset.ofList ((versionsMap.filter (fun k => !HasPrefix k "v0.")).map sv.NewVersion) ∧
    versions.length = (versionsMap.filter (fun k => !HasPrefix k "v0.")).length := by
  simp only [getNodeVersionsList] at h
  cases hc : collectVersions sv [] versionsMap with
  | error err => simp [hc] at h
  | ok versionsList =>
    simp only [hc] at h
    injection h with h
    subst h
    have hperm := (hsrt (fun vi vj => sv.GreaterThan vi vj) versionsList).1
    have hcol := collectVersions_ok sv [] versionsMap versionsList hc
    simp only [List.map_nil, List.nil_append] at hcol
    constructor
    · rw [← hcol]
      exact Multiset.coe_eq_coe.mpr (hperm.map _)
    · rw [hperm.length_eq]
      have := congrArg List.length hcol
      simpa using this

/-- Witness of C6: of the five keys of the schedule three do not start with `v0.`, and their
three parses are what is returned. -/
theorem getNodeVersionsList_keeps_all_but_v0_witness :
    Multiset.ofList (([⟨20, 0, 0, "", "", "v20"⟩, ⟨18, 0, 0, "", "", "v18"⟩, ⟨4, 0, 0, "", "", "v4"⟩] : List masterminds.Version).map
        Except.ok) =
      Multiset.ofList ((["v18", "v0.10", "v20", "v4", "v0.12"].filter
        (fun k => !HasPrefix k "v0.")).map masterminds.NewVersion) ∧
    ([⟨20, 0, 0, "", "", "v20"⟩, ⟨18, 0, 0, "", "", "v18"⟩, ⟨4, 0, 0, "", "", "v4"⟩] : List masterminds.Version).length =
      (["v18", "v0.10", "v20", "v4", "v0.12"].filter (fun k => !HasPrefix k "v0.")).length :=
  getNodeVersionsList_keeps_all_but_v0 masterminds insertionSortSlice
    insertionSortSlice_conforms ["v18", "v0.10", "v20", "v4", "v0.12"]
    [⟨20, 0, 0, "", "", "v20"⟩, ⟨18, 0, 0, "", "", "v18"⟩, ⟨4, 0, 0, "", "", "v4"⟩] rfl

/-- The parse tree of `TEMPLATE`: the header up to the opening brace (the trim marker of
`range` removes the line break and the tab after it), the `range` over dot with the text of
one line (the trim marker of `end` removes the line break and the tab before it), and the
closing brace line. -/
theorem parse_TEMPLATE :
    Parse TEMPLATE = .ok [
      Node.text "// Code generated by listversion; DO NOT EDIT.\n//go:generate go run cmd/listversion/main.go\n\npackage nodejs\n\nimport (\n\t\"github.com/Masterminds/semver/v3\"\n)\n\n// nodeVersions is a list of all the Node.js versions.\n// You should never change values here.\nvar nodeVersions = []*semver.Version\x7b",
      Node.range [Node.text "\n\tsemver.MustParse(\"", Node.dot, Node.text "\"),"],
      Node.text "\n\x7d\n"] := by
  rfl

/-- Joining a list of strings that starts with `a`. -/
theorem join_cons (a : String) (l : List String) : String.join (a :: l) = a ++ String.join l := by
  have aux : ∀ (l : List String) (init : String),
      List.foldl (fun r s => r ++ s) init l = init ++ List.foldl (fun r s => r ++ s) "" l := by
    intro l
    induction l with
    | nil => intro init; simp
    | cons b t ih =>
      intro init
      simp only [List.foldl_cons]
      rw [ih (init ++ b), ih ("" ++ b)]
      simp [String.append_assoc]
  simp only [String.join, List.foldl_cons]
  rw [aux l ("" ++ a)]
  simp

/-- Joining the concatenation of two lists of strings. -/
theorem join_append (l₁ l₂ : List String) :
    String.join (l₁ ++ l₂) = String.join l₁ ++ String.join l₂ := by
  induction l₁ with
  | nil => simp [String.join]
  | cons a t ih => simp only [List.cons_append, join_cons, ih, String.append_assoc]

/-- The output of the `range` of `TEMPLATE` over a slice of strings: one piece of text for
each string, in order. -/
theorem range_output (strs : List String) :
    concatResults (strs.map (fun x =>
      execList [Node.text "\n\tsemver.MustParse(\"", Node.dot, Node.text "\"),"] (.str x))) =
    .ok (String.join (strs.map (fun x => "\n" ++ ("\tsemver.MustParse(\"" ++ x ++ "\"),")))) := by
  induction strs with
  | nil => rfl
  | cons x rest ih =>
    have hx : execList [Node.text "\n\tsemver.MustParse(\"", Node.dot, Node.text "\"),"]
        (.str x) = .ok ("\n" ++ ("\tsemver.MustParse(\"" ++ x ++ "\"),")) := by
      simp only [execList, execNode, String.append_assoc, String.append_empty]
      rfl
    rw [List.map_cons, hx, List.map_cons, join_cons]
    simp only [concatResults, ih]

/-- Moving the line breaks of a run of lines from the front of each line to its end. -/
theorem join_shift_newline (f : String → String) (l : List String) (s : String) :
    s ++ String.join (l.map (fun x => "\n" ++ f x)) ++ "\n" =
      s ++ "\n" ++ String.join (l.map (fun x => f x ++ "\n")) := by
  induction l generalizing s with
  | nil => simp [String.join]
  | cons x rest ih =>
    simp only [List.map_cons, join_cons]
    have := ih (s ++ "\n" ++ f x)
    simp only [String.append_assoc] at this ⊢
    rw [this]

/-- The output of a list of nodes is the output of its first node and then of the others. -/
theorem execList_cons_ok (n : Node) (ns : List Node) (v : Value) (out outs : String)
    (hn : execNode n v = .ok out) (hns : execList ns v = .ok outs) :
    execList (n :: ns) v = .ok (out ++ outs) := by
  simp only [execList, hn, hns]

/-- What executing the parse tree of `TEMPLATE` writes, for any header text: the header, a
line for each string, and the closing brace line. -/
theorem execute_tree (header : String) (strs : List String) :
    Execute [Node.text header,
        Node.range [Node.text "\n\tsemver.MustParse(\"", Node.dot, Node.text "\"),"],
        Node.text "\n\x7d\n"] (.strs strs) =
      .ok (header ++ "\n" ++
        String.join (strs.map (fun v => "\tsemver.MustParse(\"" ++ v ++ "\")," ++ "\n")) ++
        "\x7d\n") := by
  have hrange : execNode
      (Node.range [Node.text "\n\tsemver.MustParse(\"", Node.dot, Node.text "\"),"])
      (.strs strs) = .ok (String.join (strs.map
        (fun x => "\n" ++ ("\tsemver.MustParse(\"" ++ x ++ "\"),")))) := by
    rw [execNode]
    exact range_output strs
  have hlast : execList [Node.text "\n\x7d\n"] (.strs strs) = .ok ("\n\x7d\n" ++ "") :=
    execList_cons_ok _ _ _ _ _ (by rw [execNode]) (by rw [execList])
  have hall := execList_cons_ok (Node.text header) _ (.strs strs) _ _ (by rw [execNode])
    (execList_cons_ok _ _ _ _ _ hrange hlast)
  rw [Execute, hall]
  have hshift := join_shift_newline (fun x => "\tsemver.MustParse(\"" ++ x ++ "\"),") strs
    header
  have hbrace : "\n\x7d\n" = "\n" ++ "\x7d\n" := rfl
  rw [← hshift, hbrace]
  simp only [String.append_assoc, String.append_empty]

/-- C7: the generator emits source that lists every fetched version once and in the order
`getNodeVersionsList` returned them. Executing `TEMPLATE` on a slice of strings writes the
fixed header (the generated-code comment, `package nodejs`, the semver import and the
opening of `nodeVersions`), then for each string, in order, one line made of a tab,
`semver.MustParse("` the string `")` and a comma, then the closing brace line; and when
`getNodeVersionsList` returns a list of versions, `main` writes exactly that for their
`String()` forms. -/
theorem main_lists_versions_in_order :
    (∀ strs : List String, ∃ tmpl, Parse TEMPLATE = .ok tmpl ∧
      Execute tmpl (.strs strs) = .ok (String.join (List.map (fun l => l ++ "\n")
        (["// Code generated by listversion; DO NOT EDIT.",
        "//go:generate go run cmd/listversion/main.go",
        "",
        "package nodejs",
        "",
        "import (",
        "\t\"github.com/Masterminds/semver/v3\"",
        ")",
        "",
        "// nodeVersions is a list of all the Node.js versions.",
        "// You should never change values here.",
        "var nodeVersions = []*semver.Version\x7b"] ++
         strs.map (fun v => "\tsemver.MustParse(\"" ++ v ++ "\"),") ++ ["\x7d"])))) ∧
    ∀ (sv : Semver) (srt : SortSlice) (decoded : Except Error (List String))
      (versions : List sv.Version),
      getNodeVersionsList sv srt decoded = .ok versions →
      main sv srt decoded = .ok (String.join (List.map (fun l => l ++ "\n")
        (["// Code generated by listversion; DO NOT EDIT.",
        "//go:generate go run cmd/listversion/main.go",
        "",
        "package nodejs",
        "",
        "import (",
        "\t\"github.com/Masterminds/semver/v3\"",
        ")",
        "",
        "// nodeVersions is a list of all the Node.js versions.",
        "// You should never change values here.",
        "var nodeVersions = []*semver.Version\x7b"] ++
         versions.map (fun v => "\tsemver.MustParse(\"" ++ sv.String v ++ "\"),") ++
         ["\x7d"]))) := by
  have hheader : String.join (List.map (fun l => l ++ "\n") ["// Code generated by listversion; DO NOT EDIT.",
        "//go:generate go run cmd/listversion/main.go",
        "",
        "package nodejs",
        "",
        "import (",
        "\t\"github.com/Masterminds/semver/v3\"",
        ")",
        "",
        "// nodeVersions is a list of all the Node.js versions.",
        "// You should never change values here.",
        "var nodeVersions = []*semver.Version\x7b"]) = "// Code generated by listversion; DO NOT EDIT.\n//go:generate go run cmd/listversion/main.go\n\npackage nodejs\n\nimport (\n\t\"github.com/Masterminds/semver/v3\"\n)\n\n// nodeVersions is a list of all the Node.js versions.\n// You should never change values here.\nvar nodeVersions = []*semver.Version\x7b" ++ "\n" := by
    rfl
  have hbrace : String.join (List.map (fun l => l ++ "\n") ["\x7d"]) = "\x7d\n" := rfl
  have hexec : ∀ strs : List String,
      Execute [Node.text "// Code generated by listversion; DO NOT EDIT.\n//go:generate go run cmd/listversion/main.go\n\npackage nodejs\n\nimport (\n\t\"github.com/Masterminds/semver/v3\"\n)\n\n// nodeVersions is a list of all the Node.js versions.\n// You should never change values here.\nvar nodeVersions = []*semver.Version\x7b",
        Node.range [Node.text "\n\tsemver.MustParse(\"", Node.dot, Node.text "\"),"],
        Node.text "\n\x7d\n"] (.strs strs) = .ok (String.join (List.map (fun l => l ++ "\n")
        (["// Code generated by listversion; DO NOT EDIT.",
        "//go:generate go run cmd/listversion/main.go",
        "",
        "package nodejs",
        "",
        "import (",
        "\t\"github.com/Masterminds/semver/v3\"",
        ")",
        "",
        "// nodeVersions is a list of all the Node.js versions.",
        "// You should never change values here.",
        "var nodeVersions = []*semver.Version\x7b"] ++
         strs.map (fun v => "\tsemver.MustParse(\"" ++ v ++ "\"),") ++ ["\x7d"]))) := by
    intro strs
    rw [execute_tree, List.map_append, List.map_append, join_append, join_append, hheader,
      hbrace, List.map_map]
    rfl
  refine ⟨fun strs => ⟨_, parse_TEMPLATE, hexec strs⟩, ?_⟩
  intro sv srt decoded versions h
  have := hexec (versions.map (fun v => sv.String v))
  rw [List.map_map] at this
  simp only [main, h, parse_TEMPLATE]
  exact this

/-- Witness of C7: the file `main` writes for a schedule of five keys, two of them
unstable. -/
theorem main_lists_versions_in_order_witness :
    main masterminds insertionSortSlice (.ok ["v18", "v0.10", "v20", "v4", "v0.12"]) =
      .ok "// Code generated by listversion; DO NOT EDIT.\n//go:generate go run cmd/listversion/main.go\n\npackage nodejs\n\nimport (\n\t\"github.com/Masterminds/semver/v3\"\n)\n\n// nodeVersions is a list of all the Node.js versions.\n// You should never change values here.\nvar nodeVersions = []*semver.Version\x7b\n\tsemver.MustParse(\"20.0.0\"),\n\tsemver.MustParse(\"18.0.0\"),\n\tsemver.MustParse(\"4.0.0\"),\n\x7d\n" :=
  main_lists_versions_in_order.2 masterminds insertionSortSlice
    (.ok ["v18", "v0.10", "v20", "v4", "v0.12"]) [⟨20, 0, 0, "", "", "v20"⟩, ⟨18, 0, 0, "", "", "v18"⟩, ⟨4, 0, 0, "", "", "v4"⟩] rfl

end Zbpack.Nodejs
